import Mathlib

/-!
Verification of the QR-code generator (src/src/App.tsx and the second
variant src/unnamed/part_000). Shallow embedding of the data model and
operations: the file parser (handleFileUpload), the keyed hash
(generateHash, CryptoJS SHA-256 over the UTF-8 bytes of the
concatenation), the batch loop (generateAndDownloadQRCodes), and the
zip packager (downloadBatch, JSZip object-keyed file insertion).
External library calls that can fail at run time (QRCode.toDataURL,
zip.generateAsync) are passed in as explicit fallible parameters, so
the embedded control flow matches the source while failure points stay
observable.
-/

namespace QRGen

/-- Whitespace characters matched by the JavaScript regex class and by
String.prototype.trim, restricted to the ASCII range that the inputs of
this program use. -/
def isJsWhitespace (c : Char) : Bool :=
  c = ' ' || c = '\t' || c = '\n' || c = '\r' || c = '\x0b' || c = '\x0c'

/-- Embedding of JavaScript String.prototype.trim: drop whitespace from
both ends of the string. -/
def jsTrim (s : String) : String :=
  ⟨((s.data.dropWhile isJsWhitespace).reverse.dropWhile isJsWhitespace).reverse⟩

/-- Embedding of line.replace applied with the global whitespace regex and
the empty replacement: remove every whitespace character. -/
def stripWs (s : String) : String :=
  ⟨s.data.filter (fun c => !isJsWhitespace c)⟩

/-- Embedding of the digits-only test used in handleFileUpload: the string
is non-empty and every character is a decimal digit. -/
def matchesDigits (s : String) : Bool :=
  !s.data.isEmpty && s.data.all (fun c => c.isDigit)

/-- Embedding of text.split with the newline separator: split the character
list at each newline, keeping empty segments, as in JavaScript. -/
def splitNewline : List Char → List (List Char)
  | [] => [[]]
  | c :: cs =>
    let r := splitNewline cs
    if c = '\n' then [] :: r
    else
      match r with
      | [] => [[c]]
      | l :: ls => (c :: l) :: ls

/-- The line pipeline of handleFileUpload: split on newline, trim each
line, keep only the non-empty lines. -/
def linesOf (text : String) : List String :=
  ((splitNewline text.data).map (fun l => jsTrim ⟨l⟩)).filter (fun l => !l.isEmpty)

/-- A line passes validation when its whitespace-stripped form is all
digits, as tested inside the validation loop of handleFileUpload. -/
def validLine (l : String) : Bool :=
  matchesDigits (stripWs l)

/-- The error message thrown by handleFileUpload for the first invalid
line. -/
def errMsg (l : String) : String :=
  "Linha contém caracteres inválidos: \"" ++ l ++ "\""

/-- The validation loop of handleFileUpload: walk the lines in order and
throw on the first line whose stripped form is not all digits. -/
def validateLines : List String → Except String Unit
  | [] => .ok ()
  | l :: ls => if validLine l then validateLines ls else .error (errMsg l)

/-- Embedding of handleFileUpload on the file text: on success the trimmed
non-empty lines, on failure the thrown message. -/
def parseFile (text : String) : Except String (List String) :=
  let lines := linesOf text
  match validateLines lines with
  | .ok _ => .ok lines
  | .error e => .error e

/-- The fileContent state after handleFileUpload: the accepted lines on
success, the empty list on failure (the catch branch clears it). -/
def storedContent (text : String) : List String :=
  match parseFile text with
  | .ok lines => lines
  | .error _ => []

/-! ### SHA-256 (CryptoJS.SHA256 with its default UTF-8 encoder) -/

/-- Truncation to a 32-bit word. -/
def w32 (n : Nat) : Nat := n % 4294967296

/-- Right rotation of a 32-bit word. -/
def rotr (n x : Nat) : Nat := w32 ((x >>> n) ||| (x <<< (32 - n)))

def bigSigma0 (x : Nat) : Nat := rotr 2 x ^^^ rotr 13 x ^^^ rotr 22 x

def bigSigma1 (x : Nat) : Nat := rotr 6 x ^^^ rotr 11 x ^^^ rotr 25 x

def smallSigma0 (x : Nat) : Nat := rotr 7 x ^^^ rotr 18 x ^^^ (x >>> 3)

def smallSigma1 (x : Nat) : Nat := rotr 17 x ^^^ rotr 19 x ^^^ (x >>> 10)

def chFn (x y z : Nat) : Nat := (x &&& y) ^^^ (w32 (x ^^^ 4294967295) &&& z)

def majFn (x y z : Nat) : Nat := (x &&& y) ^^^ (x &&& z) ^^^ (y &&& z)

/-- The SHA-256 round constants of FIPS 180-4, written in decimal. -/
def shaK : List Nat :=
  [1116352408, 1899447441, 3049323471, 3921009573, 961987163, 1508970993,
   2453635748, 2870763221, 3624381080, 310598401, 607225278, 1426881987,
   1925078388, 2162078206, 2614888103, 3248222580, 3835390401, 4022224774,
   264347078, 604807628, 770255983, 1249150122, 1555081692, 1996064986,
   2554220882, 2821834349, 2952996808, 3210313671, 3336571891, 3584528711,
   113926993, 338241895, 666307205, 773529912, 1294757372, 1396182291,
   1695183700, 1986661051, 2177026350, 2456956037, 2730485921, 2820302411,
   3259730800, 3345764771, 3516065817, 3600352804, 4094571909, 275423344,
   430227734, 506948616, 659060556, 883997877, 958139571, 1322822218,
   1537002063, 1747873779, 1955562222, 2024104815, 2227730452, 2361852424,
   2428436474, 2756734187, 3204031479, 3329325298]

/-- The SHA-256 initial hash value of FIPS 180-4, written in decimal. -/
def shaH0 : List Nat :=
  [1779033703, 3144134277, 1013904242, 2773480762,
   1359893119, 2600822924, 528734635, 1541459225]

/-- Extend a 16-word message block to the 64-word schedule; the fuel is the
number of words still to append (48). -/
def buildW (w : List Nat) : Nat → List Nat
  | 0 => w
  | f + 1 =>
    let t := w.length
    let wt := w32 (smallSigma1 (w.getD (t - 2) 0) + w.getD (t - 7) 0 +
      smallSigma0 (w.getD (t - 15) 0) + w.getD (t - 16) 0)
    buildW (w ++ [wt]) f

/-- One SHA-256 compression round on the eight-word working state. -/
def roundFn (st : List Nat) (k w : Nat) : List Nat :=
  let a := st.getD 0 0
  let b := st.getD 1 0
  let c := st.getD 2 0
  let d := st.getD 3 0
  let e := st.getD 4 0
  let f := st.getD 5 0
  let g := st.getD 6 0
  let h := st.getD 7 0
  let t1 := w32 (h + bigSigma1 e + chFn e f g + k + w)
  let t2 := w32 (bigSigma0 a + majFn a b c)
  [w32 (t1 + t2), a, b, c, w32 (d + t1), e, f, g]

/-- Process one 16-word block into the running hash value. -/
def processBlock (h : List Nat) (block : List Nat) : List Nat :=
  let w := buildW block 48
  let st := (shaK.zip w).foldl (fun st kw => roundFn st kw.1 kw.2) h
  (h.zip st).map (fun p => w32 (p.1 + p.2))

/-- Big-endian grouping of bytes into 32-bit words. -/
def bytesToWords : List Nat → List Nat
  | a :: b :: c :: d :: rest => (((a * 256 + b) * 256 + c) * 256 + d) :: bytesToWords rest
  | _ => []

/-- The trailing eight length bytes of SHA-256 padding, big-endian bit
count. -/
def lenBytes (n : Nat) : List Nat :=
  [(n >>> 56) % 256, (n >>> 48) % 256, (n >>> 40) % 256, (n >>> 32) % 256,
   (n >>> 24) % 256, (n >>> 16) % 256, (n >>> 8) % 256, n % 256]

/-- SHA-256 padding: append the 0x80 byte, zeros to 56 mod 64, then the
message bit length. -/
def padMessage (msg : List Nat) : List Nat :=
  let L := msg.length
  let zeros := (119 - L % 64) % 64
  msg ++ [128] ++ List.replicate zeros 0 ++ lenBytes (L * 8)

/-- Split a word list into 16-word blocks; the fuel is the block count. -/
def chunkBlocks : Nat → List Nat → List (List Nat)
  | 0, _ => []
  | f + 1, ws => ws.take 16 :: chunkBlocks f (ws.drop 16)

/-- SHA-256 of a byte list, as eight 32-bit words. -/
def sha256Words (msg : List Nat) : List Nat :=
  let ws := bytesToWords (padMessage msg)
  (chunkBlocks (ws.length / 16) ws).foldl processBlock shaH0

/-- Lowercase hexadecimal digit. -/
def hexDigit (n : Nat) : Char :=
  if n < 10 then Char.ofNat (48 + n) else Char.ofNat (87 + n)

/-- Eight lowercase hex digits of one 32-bit word. -/
def wordToHex (w : Nat) : List Char :=
  [hexDigit ((w >>> 28) % 16), hexDigit ((w >>> 24) % 16),
   hexDigit ((w >>> 20) % 16), hexDigit ((w >>> 16) % 16),
   hexDigit ((w >>> 12) % 16), hexDigit ((w >>> 8) % 16),
   hexDigit ((w >>> 4) % 16), hexDigit (w % 16)]

/-- UTF-8 encoding of one character. -/
def utf8Char (c : Char) : List Nat :=
  let n := c.toNat
  if n < 128 then [n]
  else if n < 2048 then [192 + n / 64, 128 + n % 64]
  else if n < 65536 then [224 + n / 4096, 128 + (n / 64) % 64, 128 + n % 64]
  else [240 + n / 262144, 128 + (n / 4096) % 64, 128 + (n / 64) % 64, 128 + n % 64]

/-- UTF-8 bytes of a string. -/
def utf8Bytes (s : String) : List Nat :=
  (s.data.map utf8Char).flatten

/-- Hex-encoded SHA-256 digest of a string, as CryptoJS.SHA256(s).toString()
produces with the default UTF-8 message encoder and hex output encoder. -/
def sha256Hex (s : String) : String :=
  ⟨((sha256Words (utf8Bytes s)).map wordToHex).flatten⟩

/-- generateHash of the password variant (src/unnamed/part_000): SHA-256 of
the identifier concatenated directly with the secret. -/
def generateHash (number password : String) : String :=
  sha256Hex (number ++ password)

/-- generateHash of src/src/App.tsx: the secret is the built-in constant. -/
def generateHashFixed (number : String) : String :=
  sha256Hex (number ++ "VAPWHV")

/-! ### Batch partition (generateAndDownloadQRCodes loop bounds) -/

/-- The chunk size constant of the source. -/
def BATCH_SIZE : Nat := 2000

/-- The inter-batch delay constant of the source, in milliseconds. -/
def BATCH_DELAY : Nat := 10000

/-- totalBatches of the source: the ceiling of totalItems divided by the
batch size, embedded as exact natural ceiling division. -/
def totalBatchesOf (n : Nat) : Nat := (n + (BATCH_SIZE - 1)) / BATCH_SIZE

/-- startIndex for a batch number. -/
def batchStart (k : Nat) : Nat := k * BATCH_SIZE

/-- endIndex for a batch number: min of startIndex plus the batch size and
totalItems. -/
def batchEnd (n k : Nat) : Nat := min (batchStart k + BATCH_SIZE) n

/-- displayStart for a batch number, 1-based. -/
def displayStart (k : Nat) : Nat := batchStart k + 1

/-- displayEnd for a batch number, 1-based inclusive. -/
def displayEnd (n k : Nat) : Nat := batchEnd n k

/-- The identifiers a batch covers: input indices startIndex to
endIndex - 1 in order. -/
def batchSlice (xs : List String) (k : Nat) : List String :=
  (xs.drop (batchStart k)).take BATCH_SIZE

/-! ### Records and the zip packager (downloadBatch) -/

/-- The QRCodeData record of the source. -/
structure QRCodeData where
  url : String
  qrDataUrl : String
  number : String
deriving DecidableEq, Repr

/-- Numeric value of an identifier string, modelling JavaScript parseInt on
the all-digit identifier strings this program produces. -/
def jsParseInt (s : String) : Nat :=
  s.data.foldl (fun n c => n * 10 + (c.toNat - 48)) 0

/-- The sort comparator of downloadBatch, as an ordering on records: the
comparator parseInt a minus parseInt b orders records before one another
exactly when the numeric values are in non-decreasing order. -/
def qrLE (a b : QRCodeData) : Prop :=
  jsParseInt a.number ≤ jsParseInt b.number

instance : DecidableRel qrLE := fun a b =>
  inferInstanceAs (Decidable (jsParseInt a.number ≤ jsParseInt b.number))

instance : IsTotal QRCodeData qrLE :=
  ⟨fun a b => Nat.le_total (jsParseInt a.number) (jsParseInt b.number)⟩

instance : IsTrans QRCodeData qrLE :=
  ⟨fun _ _ _ hab hbc => Nat.le_trans hab hbc⟩

/-- Array.prototype.sort with the numeric comparator: a stable sort by
numeric identifier value, as the ECMAScript specification requires. -/
def sortedQRCodes (l : List QRCodeData) : List QRCodeData :=
  List.insertionSort qrLE l

/-- The data-URI head removed by downloadBatch before inserting a file. -/
def dataUriTag : String := "data:image/png;base64,"

/-- Embedding of qrDataUrl.replace with the anchored data-URI regex and the
empty replacement: drop the tag when the payload starts with it. -/
def stripDataUri (s : String) : String :=
  if s.startsWith dataUriTag then s.drop dataUriTag.length else s

/-- File name and content for one record in src/src/App.tsx. -/
def fileEntry (q : QRCodeData) : String × String :=
  (q.number ++ ".png", stripDataUri q.qrDataUrl)

/-- File name and content for one record in src/unnamed/part_000, which
adds a fixed name head before the identifier. -/
def fileEntryPw (q : QRCodeData) : String × String :=
  ("qrcode_" ++ q.number ++ ".png", stripDataUri q.qrDataUrl)

/-- JSZip folder.file semantics: files live in an object keyed by name, so
inserting an existing name replaces its content in place and inserting a
new name appends it. -/
def insertFile (entries : List (String × String)) (name data : String) :
    List (String × String) :=
  match entries with
  | [] => [(name, data)]
  | (n, d) :: rest =>
    if n = name then (n, data) :: rest else (n, d) :: insertFile rest name data

/-- The file table downloadBatch builds: sort the records, then insert each
record's file into the folder. -/
def zipFilesOf (mkEntry : QRCodeData → String × String) (l : List QRCodeData) :
    List (String × String) :=
  (sortedQRCodes l).foldl (fun acc q => insertFile acc (mkEntry q).1 (mkEntry q).2) []

/-- The folder name downloadBatch uses. -/
def folderNameOf (start stop : Nat) : String :=
  "QR Codes " ++ toString start ++ " - " ++ toString stop

/-- One browser download triggered by downloadBatch: the zip file name, the
folder inside it, and the folder's files. -/
structure ZipDownload where
  zipName : String
  folderName : String
  files : List (String × String)
deriving DecidableEq, Repr

/-- Embedding of downloadBatch. zipGen stands for the external
zip.generateAsync call, the packaging step that can fail at run time. The
result carries the download together with the record array as the caller
sees it afterwards: Array.prototype.sort mutates in place, so the caller's
array is the sorted one. batchNumber is passed but unused, as in the
source. -/
def downloadBatch (mkEntry : QRCodeData → String × String)
    (zipGen : List (String × String) → Except String Unit)
    (qrCodes : List QRCodeData) (batchNumber start stop : Nat) :
    Except String (ZipDownload × List QRCodeData) :=
  let _ := batchNumber
  let folderName := folderNameOf start stop
  let sorted := sortedQRCodes qrCodes
  let files := sorted.foldl (fun acc q => insertFile acc (mkEntry q).1 (mkEntry q).2) []
  match zipGen files with
  | .error e => .error e
  | .ok _ => .ok (⟨folderName ++ ".zip", folderName, files⟩, sorted)

/-! ### The generation run (generateAndDownloadQRCodes) -/

/-- Embedding of processBatch: for each index from startIndex to
endIndex - 1, strip the stored line, hash it, build the URL and render the
QR image. qr stands for the external QRCode.toDataURL call, the encoding
step that can fail at run time; hashFn is generateHash with the secret
already applied. -/
def processBatchG (hashFn : String → String) (qr : String → Except String String)
    (content : List String) (startIndex endIndex : Nat) :
    Except String (List QRCodeData) :=
  (List.range' startIndex (endIndex - startIndex)).mapM (fun i =>
    let number := stripWs (content.getD i "")
    let hash := hashFn number
    let url := "https://check.vant.plus/" ++ number ++ "-" ++ hash
    match qr url with
    | .error e => .error e
    | .ok q => Except.ok (⟨url, q, number⟩ : QRCodeData))

/-- The component state touched by a generation run, plus the two
run-external observations: the downloads the browser received and the
console.error log. -/
structure RunState where
  errorMsg : String
  debugInfo : String
  currentBatch : Option (Nat × Nat)
  isProcessing : Bool
  fileContent : List String
  downloads : List ZipDownload
  logged : List String
deriving DecidableEq, Repr

/-- The generic catch-branch message of generateAndDownloadQRCodes. -/
def genericErrorMsg : String := "Erro ao gerar ou baixar QR codes"

/-- The missing-file precondition message. -/
def noFileMsg : String := "Por favor, carregue um arquivo primeiro"

/-- The missing-password precondition message of the password variant. -/
def noPasswordMsg : String := "Por favor, digite uma senha para gerar os QR codes"

/-- Progress message while a batch is generated. -/
def processingMsg (b t ds de : Nat) : String :=
  "Processando lote " ++ toString b ++ "/" ++ toString t ++ ": códigos " ++
    toString ds ++ " até " ++ toString de

/-- Progress message while a batch is downloaded. -/
def downloadingMsg (b t ds de : Nat) : String :=
  "Baixando lote " ++ toString b ++ "/" ++ toString t ++ ": códigos " ++
    toString ds ++ " até " ++ toString de

/-- Progress message during the inter-batch delay. -/
def waitingMsg (b : Nat) : String :=
  "Lote " ++ toString b ++
    " concluído. Aguardando 10 segundos antes do próximo lote..."

/-- Completion message of a successful run. -/
def doneMsg (totalItems totalBatches : Nat) : String :=
  "Processamento concluído. Todos os " ++ toString totalItems ++
    " QR codes foram gerados e baixados em " ++ toString totalBatches ++ " lotes."

/-- The batch loop of generateAndDownloadQRCodes. proc and dl are
processBatch and downloadBatch with their environment applied; fuel counts
the batches still to run, so the loop enters with fuel equal to
totalBatches and batchNumber zero. A thrown error lands in the catch
branch: the generic message is set, the cause is logged, and the finally
branch clears isProcessing. -/
def runLoop (proc : Nat → Nat → Except String (List QRCodeData))
    (dl : List QRCodeData → Nat → Nat → Nat → Except String (ZipDownload × List QRCodeData))
    (totalItems totalBatches : Nat) :
    Nat → Nat → RunState → RunState
  | 0, _, s =>
    { s with debugInfo := doneMsg totalItems totalBatches,
             currentBatch := none, isProcessing := false }
  | f + 1, batchNumber, s =>
    let startIndex := batchNumber * BATCH_SIZE
    let endIndex := min (startIndex + BATCH_SIZE) totalItems
    let ds := startIndex + 1
    let de := endIndex
    let s1 := { s with currentBatch := some (ds, de),
                       debugInfo := processingMsg (batchNumber + 1) totalBatches ds de }
    match proc startIndex endIndex with
    | .error e =>
      { s1 with errorMsg := genericErrorMsg, logged := s1.logged ++ [e],
                isProcessing := false }
    | .ok qrCodes =>
      let s2 := { s1 with debugInfo := downloadingMsg (batchNumber + 1) totalBatches ds de }
      match dl qrCodes (batchNumber + 1) ds de with
      | .error e =>
        { s2 with errorMsg := genericErrorMsg, logged := s2.logged ++ [e],
                  isProcessing := false }
      | .ok (d, _) =>
        let s3 := { s2 with downloads := s2.downloads ++ [d] }
        let s4 := if f > 0 then { s3 with debugInfo := waitingMsg (batchNumber + 1) } else s3
        runLoop proc dl totalItems totalBatches f (batchNumber + 1) s4

/-- The state a run starts from: fresh component state holding the loaded
fileContent. -/
def initState (content : List String) : RunState :=
  { errorMsg := "", debugInfo := "", currentBatch := none,
    isProcessing := false, fileContent := content, downloads := [], logged := [] }

/-- Embedding of generateAndDownloadQRCodes from src/src/App.tsx: the
precondition check on the loaded file, then the batch loop with the
built-in secret. -/
def generateAndDownloadQRCodes (qr : String → Except String String)
    (zipGen : List (String × String) → Except String Unit)
    (content : List String) : RunState :=
  let s0 := initState content
  if content.length = 0 then { s0 with errorMsg := noFileMsg }
  else
    let s1 := { s0 with isProcessing := true, errorMsg := "" }
    let totalItems := content.length
    let totalBatches := totalBatchesOf totalItems
    runLoop (processBatchG generateHashFixed qr content)
      (downloadBatch fileEntry zipGen) totalItems totalBatches totalBatches 0 s1

/-- Embedding of generateAndDownloadQRCodes from src/unnamed/part_000: the
password precondition first, then the file precondition, then the batch
loop with the user-supplied secret and the qrcode_ file names. -/
def generateAndDownloadQRCodesPw (qr : String → Except String String)
    (zipGen : List (String × String) → Except String Unit)
    (password : String) (content : List String) : RunState :=
  let s0 := initState content
  if password = "" then { s0 with errorMsg := noPasswordMsg }
  else if content.length = 0 then { s0 with errorMsg := noFileMsg }
  else
    let s1 := { s0 with isProcessing := true, errorMsg := "" }
    let totalItems := content.length
    let totalBatches := totalBatchesOf totalItems
    runLoop (processBatchG (fun n => generateHash n password) qr content)
      (downloadBatch fileEntryPw zipGen) totalItems totalBatches totalBatches 0 s1

/-- One whole batch step as the loop body performs it: generate the
batch's records, then package and download them. -/
def stepOf (proc : Nat → Nat → Except String (List QRCodeData))
    (dl : List QRCodeData → Nat → Nat → Nat → Except String (ZipDownload × List QRCodeData))
    (totalItems k : Nat) : Except String ZipDownload :=
  let startIndex := k * BATCH_SIZE
  let endIndex := min (startIndex + BATCH_SIZE) totalItems
  match proc startIndex endIndex with
  | .error e => .error e
  | .ok qrCodes =>
    match dl qrCodes (k + 1) (startIndex + 1) endIndex with
    | .error e => .error e
    | .ok (d, _) => .ok d

/-- One whole batch step of the run of src/src/App.tsx. -/
def batchResult (qr : String → Except String String)
    (zipGen : List (String × String) → Except String Unit)
    (content : List String) (k : Nat) : Except String ZipDownload :=
  stepOf (processBatchG generateHashFixed qr content)
    (downloadBatch fileEntry zipGen) content.length k

/-- Decidable equality for the fallible results of the external calls. -/
instance {ε α : Type} [DecidableEq ε] [DecidableEq α] : DecidableEq (Except ε α) := fun
  | .error a, .error b =>
    match decEq a b with
    | isTrue h => isTrue (by rw [h])
    | isFalse h => isFalse (by intro he; injection he; exact h (by assumption))
  | .error _, .ok _ => isFalse (by intro h; exact Except.noConfusion h)
  | .ok _, .error _ => isFalse (by intro h; exact Except.noConfusion h)
  | .ok a, .ok b =>
    match decEq a b with
    | isTrue h => isTrue (by rw [h])
    | isFalse h => isFalse (by intro he; injection he; exact h (by assumption))

end QRGen

namespace QRGen

set_option maxRecDepth 100000 in
/-- Known test vector for the SHA-256 embedding. -/
theorem sha256Hex_testVector :
    sha256Hex "abc" = "ba7816bf8f01cfea414140de5dae2223b00361a396177a9cb410ff61f20015ad" := by
  decide

/-! ### Helper lemmas -/

/-- Concatenating the first n chunks of size S recovers the first n times S
elements. -/
theorem flatten_chunks {α : Type} (S : Nat) (xs : List α) :
    ∀ n : Nat, ((List.range n).map (fun k => (xs.drop (k * S)).take S)).flatten
      = xs.take (n * S)
  | 0 => by simp
  | n + 1 => by
    rw [List.range_succ, List.map_append, List.flatten_append, flatten_chunks S xs n]
    simp [Nat.succ_mul, List.take_add]

/-- The validation loop accepts a list of lines that all pass the digit
check. -/
theorem validateLines_ok : ∀ ls : List String,
    (∀ l ∈ ls, validLine l = true) → validateLines ls = .ok ()
  | [], _ => rfl
  | l :: ls, h => by
    have h1 := h l (List.mem_cons_self l ls)
    simp only [validateLines, h1, if_true]
    exact validateLines_ok ls (fun x hx => h x (List.mem_cons_of_mem l hx))

/-- The validation loop throws on the first line failing the digit
check. -/
theorem validateLines_find : ∀ (ls : List String) (bad : String),
    ls.find? (fun l => !validLine l) = some bad →
    validateLines ls = .error (errMsg bad)
  | [], bad, h => by simp [List.find?] at h
  | l :: ls, bad, h => by
    cases hv : validLine l with
    | true =>
      rw [List.find?_cons] at h
      simp only [hv, Bool.not_true] at h
      simp only [validateLines, hv, if_true]
      exact validateLines_find ls bad h
    | false =>
      rw [List.find?_cons] at h
      simp only [hv, Bool.not_false, Option.some.injEq] at h
      subst h
      simp [validateLines, hv]

/-! ### C1 -/

/-- C1: a generation run over a non-empty loaded list of length N
partitions it into exactly the ceiling of N over 2000 batches; batch k
covers input indices k times 2000 up to the minimum of (k+1) times 2000 and
N, minus one, in input order; concatenating the batches in order gives back
the whole list, so every identifier lands in exactly one batch; the 1-based
display ranges are contiguous, non-overlapping, and cover 1..N; and each
batch is exactly the loop's index range mapped over the loaded list. -/
theorem batch_partition (xs : List String) (h : 0 < xs.length) :
    (xs.length ≤ totalBatchesOf xs.length * BATCH_SIZE ∧
      BATCH_SIZE * (totalBatchesOf xs.length - 1) < xs.length) ∧
    ((List.range (totalBatchesOf xs.length)).map (batchSlice xs)).flatten = xs ∧
    displayStart 0 = 1 ∧
    (∀ k, k + 1 < totalBatchesOf xs.length →
      displayStart (k + 1) = displayEnd xs.length k + 1) ∧
    (∀ k, k < totalBatchesOf xs.length →
      displayStart k ≤ displayEnd xs.length k ∧ displayEnd xs.length k ≤ xs.length) ∧
    displayEnd xs.length (totalBatchesOf xs.length - 1) = xs.length ∧
    (∀ k, k < totalBatchesOf xs.length →
      (batchSlice xs k).length = displayEnd xs.length k - displayStart k + 1) ∧
    (∀ k, k < totalBatchesOf xs.length →
      batchSlice xs k = (List.range' (batchStart k) (batchEnd xs.length k - batchStart k)).map
        (fun i => xs.getD i "")) := by
  have hd := Nat.div_add_mod (xs.length + 1999) 2000
  have hm : (xs.length + 1999) % 2000 < 2000 := Nat.mod_lt _ (by omega)
  have hB : totalBatchesOf xs.length = (xs.length + 1999) / 2000 := by
    simp [totalBatchesOf, BATCH_SIZE]
  have hub : xs.length ≤ totalBatchesOf xs.length * 2000 := by rw [hB]; omega
  have hlb : 2000 * (totalBatchesOf xs.length - 1) < xs.length := by rw [hB]; omega
  have hklt : ∀ k, k < totalBatchesOf xs.length → k * 2000 < xs.length := by
    intro k hk
    have h1 : k ≤ totalBatchesOf xs.length - 1 := by omega
    have h2 : k * 2000 ≤ (totalBatchesOf xs.length - 1) * 2000 :=
      Nat.mul_le_mul_right 2000 h1
    omega
  have hslice : batchSlice xs = fun k => (xs.drop (k * 2000)).take 2000 := by
    funext k
    simp [batchSlice, batchStart, BATCH_SIZE]
  refine ⟨⟨by simpa [BATCH_SIZE] using hub, by simpa [BATCH_SIZE] using hlb⟩, ?_, ?_, ?_, ?_, ?_, ?_, ?_⟩
  · rw [hslice, flatten_chunks 2000 xs (totalBatchesOf xs.length)]
    exact List.take_of_length_le (by omega)
  · simp [displayStart, batchStart]
  · intro k hk
    have h1 := hklt (k + 1) hk
    simp only [displayStart, displayEnd, batchEnd, batchStart, BATCH_SIZE]
    omega
  · intro k hk
    have h1 := hklt k hk
    simp only [displayStart, displayEnd, batchEnd, batchStart, BATCH_SIZE]
    omega
  · have hB1 : 0 < totalBatchesOf xs.length := by rw [hB]; omega
    simp only [displayEnd, batchEnd, batchStart, BATCH_SIZE]
    have h2 : (totalBatchesOf xs.length - 1) * 2000 ≤ totalBatchesOf xs.length * 2000 :=
      Nat.mul_le_mul_right 2000 (by omega)
    have h3 : (totalBatchesOf xs.length - 1) * 2000 + 2000 = totalBatchesOf xs.length * 2000 := by
      cases' Nat.exists_eq_add_of_lt hB1 with m hm'
      have : totalBatchesOf xs.length = m + 1 := by omega
      rw [this]
      ring_nf
      omega
    omega
  · intro k hk
    have h1 := hklt k hk
    simp only [displayStart, displayEnd, batchEnd, batchStart, BATCH_SIZE, batchSlice,
      List.length_take, List.length_drop]
    omega
  · intro k hk
    have h1 := hklt k hk
    apply List.ext_getElem
    · simp only [batchSlice, batchStart, batchEnd, BATCH_SIZE, List.length_take,
        List.length_drop, List.length_map, List.length_range']
      omega
    · intro n h1' h2'
      simp only [batchSlice, batchStart, BATCH_SIZE] at h1' ⊢
      have hbound : k * 2000 + n < xs.length := by
        simp only [List.length_take, List.length_drop] at h1'
        omega
      rw [List.getElem_take, List.getElem_drop]
      simp only [List.getElem_map, List.getElem_range', Nat.one_mul]
      rw [List.getD_eq_getElem _ _ hbound]

/-- Witness for C1 at a concrete three-element list: the batches
concatenate back to the input. -/
theorem batch_partition_witness :
    ((List.range (totalBatchesOf (["1", "2", "3"] : List String).length)).map
      (batchSlice ["1", "2", "3"])).flatten = ["1", "2", "3"] :=
  (batch_partition ["1", "2", "3"] (by decide)).2.1

/-! ### C2 -/

/-- C2 counterexample: the file whose single line is "1 2" passes
validation, and handleFileUpload stores the trimmed line with its internal
whitespace intact, not the whitespace-free form "12" the claim
requires. -/
theorem stored_keeps_inner_whitespace :
    storedContent "1 2" = ["1 2"] ∧ ("1 2" : String) ≠ "12" := by
  constructor
  · decide
  · decide

/-- C2 (amended): for every uploaded text in which every trimmed non-empty
line passes the digits-only check after whitespace removal, the parser
accepts the file and stores exactly the trimmed non-empty lines in input
order; internal whitespace is preserved in the stored lines and is only
stripped later, when a generation run reads each line. -/
theorem parser_accepts_valid (text : String)
    (h : ∀ l ∈ linesOf text, validLine l = true) :
    parseFile text = .ok (linesOf text) ∧ storedContent text = linesOf text := by
  have hv := validateLines_ok (linesOf text) h
  constructor
  · simp [parseFile, hv]
  · simp [storedContent, parseFile, hv]

/-- Witness for C2 at the concrete file with lines 1, 2 and a padded 3. -/
theorem parser_accepts_valid_witness :
    parseFile "1\n2\n 3 " = .ok (linesOf "1\n2\n 3 ") ∧
      storedContent "1\n2\n 3 " = linesOf "1\n2\n 3 " :=
  parser_accepts_valid "1\n2\n 3 " (by decide)

/-! ### C3 -/

/-- C3 counterexample: the digest is not one-to-one on (identifier, secret)
pairs: the pairs ("12", "3") and ("1", "23") differ but concatenate to the
same string, so their digests are equal. -/
theorem hash_not_injective :
    generateHash "12" "3" = generateHash "1" "23" ∧
      ¬("12" = "1" ∧ ("3" : String) = "23") := by
  constructor
  · show sha256Hex ("12" ++ "3") = sha256Hex ("1" ++ "23")
    have h : ("12" ++ "3" : String) = "1" ++ "23" := by decide
    rw [h]
  · decide

/-- C3 (amended): the digest is deterministic and depends only on the
concatenation of identifier and secret: whenever two pairs concatenate to
the same string the digests are equal, so the function is not one-to-one on
pairs. -/
theorem hash_determined_by_concat (a b c d : String) (h : a ++ b = c ++ d) :
    generateHash a b = generateHash c d := by
  unfold generateHash
  rw [h]

/-- Witness for C3 at the colliding pairs. -/
theorem hash_determined_by_concat_witness :
    generateHash "12" "3" = generateHash "1" "23" :=
  hash_determined_by_concat "12" "3" "1" "23" (by decide)

/-! ### C4 -/

/-- C4: for every uploaded text with at least one trimmed non-empty line
whose whitespace-stripped form contains a non-digit, the parser rejects the
whole upload: the thrown message quotes the first offending trimmed line,
and the stored identifier list is empty. -/
theorem parser_rejects_invalid (text : String)
    (h : ∃ l ∈ linesOf text, validLine l = false) :
    ∃ bad, (linesOf text).find? (fun l => !validLine l) = some bad ∧
      validLine bad = false ∧ parseFile text = .error (errMsg bad) ∧
      storedContent text = [] := by
  obtain ⟨l0, hl0, hv0⟩ := h
  cases hf : (linesOf text).find? (fun l => !validLine l) with
  | none =>
    rw [List.find?_eq_none] at hf
    exact absurd (by simp [hv0] : (!validLine l0) = true) (hf l0 hl0)
  | some bad =>
    have hbad : validLine bad = false := by
      have := List.find?_some hf
      simpa using this
    have hval := validateLines_find (linesOf text) bad hf
    refine ⟨bad, rfl, hbad, ?_, ?_⟩
    · simp [parseFile, hval]
    · simp [storedContent, parseFile, hval]

/-- Witness for C4 at a file whose middle line is "12a3": the upload is
rejected with the message quoting that line and nothing is stored. -/
theorem parser_rejects_invalid_witness :
    ∃ bad, (linesOf "123\n12a3\n9").find? (fun l => !validLine l) = some bad ∧
      validLine bad = false ∧ parseFile "123\n12a3\n9" = .error (errMsg bad) ∧
      storedContent "123\n12a3\n9" = [] :=
  parser_rejects_invalid "123\n12a3\n9" ⟨"12a3", by decide, by decide⟩

/-! ### C5 -/

/-- Inserting into a list in comparator order moves an element past exactly
the strictly smaller keys, so filtering at any fixed key commutes with the
insertion. -/
theorem orderedInsert_filter_key (x : QRCodeData) (v : Nat) :
    ∀ l : List QRCodeData,
      (List.orderedInsert qrLE x l).filter (fun y => jsParseInt y.number == v) =
        if jsParseInt x.number = v then
          x :: l.filter (fun y => jsParseInt y.number == v)
        else l.filter (fun y => jsParseInt y.number == v)
  | [] => by
    by_cases hx : jsParseInt x.number = v <;>
      simp [List.filter_cons, hx]
  | b :: l => by
    simp only [List.orderedInsert]
    by_cases hr : qrLE x b
    · rw [if_pos hr]
      by_cases hx : jsParseInt x.number = v <;> simp [List.filter_cons, hx]
    · rw [if_neg hr]
      have hlt : jsParseInt b.number < jsParseInt x.number := by
        simpa [qrLE, Nat.not_le] using hr
      by_cases hx : jsParseInt x.number = v
      · have hb : ¬ jsParseInt b.number = v := by omega
        simp [List.filter_cons, hx, hb, orderedInsert_filter_key x v l]
      · by_cases hb : jsParseInt b.number = v <;>
          simp [List.filter_cons, hb, hx, orderedInsert_filter_key x v l]

/-- Stability of the packager's sort: the records holding any fixed numeric
key keep their relative input order. -/
theorem insertionSort_filter_key (v : Nat) :
    ∀ l : List QRCodeData,
      (sortedQRCodes l).filter (fun y => jsParseInt y.number == v) =
        l.filter (fun y => jsParseInt y.number == v)
  | [] => rfl
  | b :: l => by
    have ih := insertionSort_filter_key v l
    simp only [sortedQRCodes, List.insertionSort] at ih ⊢
    rw [orderedInsert_filter_key]
    by_cases hb : jsParseInt b.number = v <;>
      simp [List.filter_cons, hb, ih]

/-- C5: the packager's output order is a permutation of the records handed
to it, sorted ascending by the numeric value of the identifier, and the
sort is stable: records with equal numeric keys keep their relative input
order. -/
theorem packager_sorts_ascending (l : List QRCodeData) :
    (sortedQRCodes l).Perm l ∧ List.Sorted qrLE (sortedQRCodes l) ∧
      ∀ v : Nat, (sortedQRCodes l).filter (fun y => jsParseInt y.number == v) =
        l.filter (fun y => jsParseInt y.number == v) :=
  ⟨List.perm_insertionSort qrLE l, List.sorted_insertionSort qrLE l,
    fun v => insertionSort_filter_key v l⟩

/-! ### C6 -/

/-- Inserting a fresh name into the zip folder appends at the end. -/
theorem insertFile_of_not_mem (name data : String) :
    ∀ entries : List (String × String), name ∉ entries.map Prod.fst →
      insertFile entries name data = entries ++ [(name, data)]
  | [], _ => rfl
  | (n, d) :: rest, h => by
    have hn : n ≠ name := by
      intro he
      exact h (by simp [he])
    simp only [insertFile, if_neg hn, List.cons_append, List.cons.injEq, true_and]
    exact insertFile_of_not_mem name data rest (by
      intro hm
      exact h (by simp [hm]))

/-- When all inserted names are fresh and pairwise distinct, the folder's
file table is the entry list in insertion order. -/
theorem foldl_insertFile_of_nodup (mk : QRCodeData → String × String) :
    ∀ (l : List QRCodeData) (acc : List (String × String)),
      (acc.map Prod.fst ++ l.map (fun q => (mk q).1)).Nodup →
      l.foldl (fun a q => insertFile a (mk q).1 (mk q).2) acc = acc ++ l.map mk
  | [], acc, _ => by simp
  | q :: t, acc, h => by
    have hnotmem : (mk q).1 ∉ acc.map Prod.fst := by
      rw [List.nodup_append] at h
      intro hmem
      exact h.2.2 hmem (by simp)
    simp only [List.foldl_cons]
    rw [insertFile_of_not_mem _ _ acc hnotmem]
    have h' : ((acc ++ [((mk q).1, (mk q).2)]).map Prod.fst ++
        t.map (fun q => (mk q).1)).Nodup := by
      simpa [List.map_append, List.append_assoc] using h
    rw [foldl_insertFile_of_nodup mk t (acc ++ [((mk q).1, (mk q).2)]) h']
    simp

/-- Appending a fixed suffix is injective on strings. -/
theorem strAppend_injective (t : String) :
    Function.Injective (fun s : String => s ++ t) := by
  intro a b hab
  have hab' : a ++ t = b ++ t := hab
  apply String.ext
  have hd : (a ++ t).data = (b ++ t).data := by rw [hab']
  rw [String.data_append, String.data_append] at hd
  exact List.append_left_injective t.data hd

/-- Prepending a fixed head is injective on strings. -/
theorem strPrepend_injective (t : String) :
    Function.Injective (fun s : String => t ++ s) := by
  intro a b hab
  have hab' : t ++ a = t ++ b := hab
  apply String.ext
  have hd : (t ++ a).data = (t ++ b).data := by rw [hab']
  rw [String.data_append, String.data_append] at hd
  exact List.append_right_injective t.data hd

/-- Distinct identifiers give distinct file names, in both naming
variants. -/
theorem nodup_entry_names (l : List QRCodeData)
    (h : (l.map (fun q => q.number)).Nodup) :
    ((sortedQRCodes l).map (fun q => (fileEntry q).1)).Nodup ∧
      ((sortedQRCodes l).map (fun q => (fileEntryPw q).1)).Nodup := by
  have hperm : ((sortedQRCodes l).map (fun q => q.number)).Perm
      (l.map fun q => q.number) := (List.perm_insertionSort qrLE l).map _
  have hs : ((sortedQRCodes l).map (fun q => q.number)).Nodup := hperm.nodup_iff.mpr h
  constructor
  · have he : (fun q : QRCodeData => (fileEntry q).1) =
        (fun s : String => s ++ ".png") ∘ (fun q : QRCodeData => q.number) := rfl
    rw [he, ← List.map_map]
    exact hs.map (strAppend_injective ".png")
  · have he : (fun q : QRCodeData => (fileEntryPw q).1) =
        ((fun s : String => s ++ ".png") ∘ (fun s : String => "qrcode_" ++ s)) ∘
          (fun q : QRCodeData => q.number) := rfl
    rw [he, ← List.map_map]
    exact hs.map ((strAppend_injective ".png").comp (strPrepend_injective "qrcode_"))

/-- C6 counterexample: in the src/unnamed/part_000 packager, the single
file for the record with identifier 7 is named qrcode_7.png, not the
identifier plus the image extension. -/
theorem packager_pw_name_mismatch :
    (zipFilesOf fileEntryPw [⟨"u", "data:image/png;base64,AAA", "7"⟩]).map Prod.fst =
      ["qrcode_7.png"] ∧ ("qrcode_7.png" : String) ≠ "7" ++ ".png" := by
  constructor
  · decide
  · decide

/-- C6 (amended): for every packaged batch whose identifiers are pairwise
distinct, the archive holds exactly one folder named "QR Codes {start} -
{end}" and one image file per record, holding the record's payload with the
data-URI head stripped; the file name is the identifier plus ".png" in
src/src/App.tsx and the identifier with the fixed head "qrcode_" plus
".png" in src/unnamed/part_000. -/
theorem packager_archive_layout (l : List QRCodeData) (start stop : Nat)
    (h : (l.map (fun q => q.number)).Nodup) :
    folderNameOf start stop = "QR Codes " ++ toString start ++ " - " ++ toString stop ∧
    zipFilesOf fileEntry l = (sortedQRCodes l).map fileEntry ∧
    zipFilesOf fileEntryPw l = (sortedQRCodes l).map fileEntryPw ∧
    ((zipFilesOf fileEntry l).map Prod.fst).Nodup ∧
    (∀ q ∈ l, (q.number ++ ".png", stripDataUri q.qrDataUrl) ∈ zipFilesOf fileEntry l) ∧
    (zipFilesOf fileEntry l).length = l.length := by
  obtain ⟨hn1, hn2⟩ := nodup_entry_names l h
  have hz1 : zipFilesOf fileEntry l = (sortedQRCodes l).map fileEntry := by
    simpa [zipFilesOf] using
      foldl_insertFile_of_nodup fileEntry (sortedQRCodes l) [] (by simpa using hn1)
  have hz2 : zipFilesOf fileEntryPw l = (sortedQRCodes l).map fileEntryPw := by
    simpa [zipFilesOf] using
      foldl_insertFile_of_nodup fileEntryPw (sortedQRCodes l) [] (by simpa using hn2)
  refine ⟨rfl, hz1, hz2, ?_, ?_, ?_⟩
  · rw [hz1, List.map_map]
    exact hn1
  · intro q hq
    rw [hz1]
    exact List.mem_map.mpr ⟨q, (List.mem_insertionSort qrLE).mpr hq, rfl⟩
  · rw [hz1, List.length_map]
    exact (List.perm_insertionSort qrLE l).length_eq

/-- Witness for C6 at a concrete two-record batch with distinct
identifiers. -/
theorem packager_archive_layout_witness :
    zipFilesOf fileEntry
        [⟨"u1", "data:image/png;base64,AAA", "2"⟩, ⟨"u2", "data:image/png;base64,BBB", "1"⟩] =
      (sortedQRCodes
          [⟨"u1", "data:image/png;base64,AAA", "2"⟩,
            ⟨"u2", "data:image/png;base64,BBB", "1"⟩]).map fileEntry :=
  (packager_archive_layout _ 1 2 (by decide)).2.1

/-! ### The batch loop, unfolded branch by branch -/

/-- A successful external result carries its value. -/
theorem except_toOption_ok {ε α : Type} (a : α) :
    (Except.ok a : Except ε α).toOption = some a := rfl

section RunLoopLemmas

variable (proc : Nat → Nat → Except String (List QRCodeData))
variable (dl : List QRCodeData → Nat → Nat → Nat →
  Except String (ZipDownload × List QRCodeData))
variable (totalItems totalBatches : Nat)

/-- Loop branch: the generation step of the current batch throws. -/
theorem runLoop_succ_err_proc (f b : Nat) (s : RunState) (e : String)
    (hp : proc (b * BATCH_SIZE) (min (b * BATCH_SIZE + BATCH_SIZE) totalItems) = .error e) :
    runLoop proc dl totalItems totalBatches (f + 1) b s =
      { s with
        currentBatch := some (b * BATCH_SIZE + 1, min (b * BATCH_SIZE + BATCH_SIZE) totalItems),
        debugInfo := processingMsg (b + 1) totalBatches (b * BATCH_SIZE + 1)
          (min (b * BATCH_SIZE + BATCH_SIZE) totalItems),
        errorMsg := genericErrorMsg, logged := s.logged ++ [e],
        isProcessing := false } := by
  simp only [runLoop, hp]

/-- Loop branch: the download step of the current batch throws. -/
theorem runLoop_succ_err_dl (f b : Nat) (s : RunState) (e : String)
    (qrCodes : List QRCodeData)
    (hp : proc (b * BATCH_SIZE) (min (b * BATCH_SIZE + BATCH_SIZE) totalItems) = .ok qrCodes)
    (hd : dl qrCodes (b + 1) (b * BATCH_SIZE + 1)
      (min (b * BATCH_SIZE + BATCH_SIZE) totalItems) = .error e) :
    runLoop proc dl totalItems totalBatches (f + 1) b s =
      { s with
        currentBatch := some (b * BATCH_SIZE + 1, min (b * BATCH_SIZE + BATCH_SIZE) totalItems),
        debugInfo := downloadingMsg (b + 1) totalBatches (b * BATCH_SIZE + 1)
          (min (b * BATCH_SIZE + BATCH_SIZE) totalItems),
        errorMsg := genericErrorMsg, logged := s.logged ++ [e],
        isProcessing := false } := by
  simp only [runLoop, hp, hd]

/-- Loop branch: the current batch succeeds and the loop continues. -/
theorem runLoop_succ_ok (f b : Nat) (s : RunState) (d : ZipDownload)
    (qrCodes arr : List QRCodeData)
    (hp : proc (b * BATCH_SIZE) (min (b * BATCH_SIZE + BATCH_SIZE) totalItems) = .ok qrCodes)
    (hd : dl qrCodes (b + 1) (b * BATCH_SIZE + 1)
      (min (b * BATCH_SIZE + BATCH_SIZE) totalItems) = .ok (d, arr)) :
    runLoop proc dl totalItems totalBatches (f + 1) b s =
      runLoop proc dl totalItems totalBatches f (b + 1)
        (if f > 0 then
          { s with
            currentBatch := some (b * BATCH_SIZE + 1, min (b * BATCH_SIZE + BATCH_SIZE) totalItems),
            debugInfo := waitingMsg (b + 1),
            downloads := s.downloads ++ [d] }
        else
          { s with
            currentBatch := some (b * BATCH_SIZE + 1, min (b * BATCH_SIZE + BATCH_SIZE) totalItems),
            debugInfo := downloadingMsg (b + 1) totalBatches (b * BATCH_SIZE + 1)
              (min (b * BATCH_SIZE + BATCH_SIZE) totalItems),
            downloads := s.downloads ++ [d] }) := by
  simp only [runLoop, hp, hd]

/-- The step decomposes exactly as the loop body does. -/
theorem stepOf_cases (k : Nat) :
    (∃ e, proc (k * BATCH_SIZE) (min (k * BATCH_SIZE + BATCH_SIZE) totalItems) = .error e ∧
      stepOf proc dl totalItems k = .error e) ∨
    (∃ qrCodes e, proc (k * BATCH_SIZE) (min (k * BATCH_SIZE + BATCH_SIZE) totalItems) = .ok qrCodes ∧
      dl qrCodes (k + 1) (k * BATCH_SIZE + 1) (min (k * BATCH_SIZE + BATCH_SIZE) totalItems) = .error e ∧
      stepOf proc dl totalItems k = .error e) ∨
    (∃ qrCodes d arr, proc (k * BATCH_SIZE) (min (k * BATCH_SIZE + BATCH_SIZE) totalItems) = .ok qrCodes ∧
      dl qrCodes (k + 1) (k * BATCH_SIZE + 1) (min (k * BATCH_SIZE + BATCH_SIZE) totalItems) = .ok (d, arr) ∧
      stepOf proc dl totalItems k = .ok d) := by
  cases hp : proc (k * BATCH_SIZE) (min (k * BATCH_SIZE + BATCH_SIZE) totalItems) with
  | error e => exact Or.inl ⟨e, rfl, by simp only [stepOf, hp]⟩
  | ok qrCodes =>
    cases hd : dl qrCodes (k + 1) (k * BATCH_SIZE + 1)
        (min (k * BATCH_SIZE + BATCH_SIZE) totalItems) with
    | error e => exact Or.inr (Or.inl ⟨qrCodes, e, rfl, hd, by simp only [stepOf, hp, hd]⟩)
    | ok p =>
      obtain ⟨d, arr⟩ := p
      exact Or.inr (Or.inr ⟨qrCodes, d, arr, rfl, hd, by simp only [stepOf, hp, hd]⟩)

/-- The batch loop never touches the loaded identifier list. -/
theorem runLoop_fileContent :
    ∀ (fuel b : Nat) (s : RunState),
      (runLoop proc dl totalItems totalBatches fuel b s).fileContent = s.fileContent := by
  intro fuel
  induction fuel with
  | zero => intro b s; rfl
  | succ f ih =>
    intro b s
    rcases stepOf_cases proc dl totalItems b with
      ⟨e, hp, _⟩ | ⟨qrCodes, e, hp, hd, _⟩ | ⟨qrCodes, d, arr, hp, hd, _⟩
    · rw [runLoop_succ_err_proc proc dl totalItems totalBatches f b s e hp]
    · rw [runLoop_succ_err_dl proc dl totalItems totalBatches f b s e qrCodes hp hd]
    · rw [runLoop_succ_ok proc dl totalItems totalBatches f b s d qrCodes arr hp hd, ih]
      split <;> rfl

/-- If every batch step before index j succeeds and step j throws, the loop
sets the generic message, logs exactly the one cause, clears the processing
flag, and the downloads are exactly the results of the steps before j. -/
theorem runLoop_first_error :
    ∀ (j fuel b : Nat) (e : String) (s : RunState),
      j < fuel →
      (∀ i, i < j → ∃ d, stepOf proc dl totalItems (b + i) = .ok d) →
      stepOf proc dl totalItems (b + j) = .error e →
      (runLoop proc dl totalItems totalBatches fuel b s).errorMsg = genericErrorMsg ∧
      (runLoop proc dl totalItems totalBatches fuel b s).logged = s.logged ++ [e] ∧
      (runLoop proc dl totalItems totalBatches fuel b s).isProcessing = false ∧
      (runLoop proc dl totalItems totalBatches fuel b s).downloads = s.downloads ++
        (List.range j).filterMap (fun i => (stepOf proc dl totalItems (b + i)).toOption) := by
  intro j
  induction j with
  | zero =>
    intro fuel b e s hj hok herr
    obtain ⟨f, rfl⟩ : ∃ f, fuel = f + 1 := ⟨fuel - 1, by omega⟩
    rw [Nat.add_zero] at herr
    rcases stepOf_cases proc dl totalItems b with
      ⟨e', hp, hs⟩ | ⟨qrCodes, e', hp, hd, hs⟩ | ⟨qrCodes, d, arr, hp, hd, hs⟩
    · rw [hs] at herr
      have he : e' = e := by injection herr
      rw [runLoop_succ_err_proc proc dl totalItems totalBatches f b s e' hp]
      simp [he]
    · rw [hs] at herr
      have he : e' = e := by injection herr
      rw [runLoop_succ_err_dl proc dl totalItems totalBatches f b s e' qrCodes hp hd]
      simp [he]
    · rw [hs] at herr
      exact Except.noConfusion herr
  | succ j ih =>
    intro fuel b e s hj hok herr
    obtain ⟨f, rfl⟩ : ∃ f, fuel = f + 1 := ⟨fuel - 1, by omega⟩
    obtain ⟨d0, hs0⟩ := hok 0 (by omega)
    rw [Nat.add_zero] at hs0
    rcases stepOf_cases proc dl totalItems b with
      ⟨e', _, hs⟩ | ⟨qrCodes, e', _, _, hs⟩ | ⟨qrCodes, d, arr, hp, hd, hs⟩
    · rw [hs0] at hs; exact Except.noConfusion hs
    · rw [hs0] at hs; exact Except.noConfusion hs
    · rw [runLoop_succ_ok proc dl totalItems totalBatches f b s d qrCodes arr hp hd]
      have hok' : ∀ i, i < j → ∃ d', stepOf proc dl totalItems (b + 1 + i) = .ok d' := by
        intro i hi
        have := hok (i + 1) (by omega)
        rwa [show b + (i + 1) = b + 1 + i by omega] at this
      have herr' : stepOf proc dl totalItems (b + 1 + j) = .error e := by
        rw [show b + 1 + j = b + (j + 1) by omega]
        exact herr
      have hrange : (List.range (j + 1)).filterMap
          (fun i => (stepOf proc dl totalItems (b + i)).toOption) =
          d :: (List.range j).filterMap
            (fun i => (stepOf proc dl totalItems (b + 1 + i)).toOption) := by
        have hfun : (fun i => (stepOf proc dl totalItems (b + Nat.succ i)).toOption) =
            (fun i => (stepOf proc dl totalItems (b + 1 + i)).toOption) := by
          funext i
          rw [show b + Nat.succ i = b + 1 + i by omega]
        rw [List.range_succ_eq_map]
        simp only [List.filterMap_cons, List.filterMap_map, Function.comp_def, Nat.add_zero,
          hs, except_toOption_ok, hfun]
      by_cases hf : f > 0
      · have hres := ih f (b + 1) e
          ({ s with
            currentBatch := some (b * BATCH_SIZE + 1, min (b * BATCH_SIZE + BATCH_SIZE) totalItems),
            debugInfo := waitingMsg (b + 1),
            downloads := s.downloads ++ [d] }) (by omega) hok' herr'
        rw [if_pos hf]
        refine ⟨hres.1, ?_, hres.2.2.1, ?_⟩
        · rw [hres.2.1]
        · rw [hres.2.2.2, hrange]
          simp
      · have hres := ih f (b + 1) e
          ({ s with
            currentBatch := some (b * BATCH_SIZE + 1, min (b * BATCH_SIZE + BATCH_SIZE) totalItems),
            debugInfo := downloadingMsg (b + 1) totalBatches (b * BATCH_SIZE + 1)
              (min (b * BATCH_SIZE + BATCH_SIZE) totalItems),
            downloads := s.downloads ++ [d] }) (by omega) hok' herr'
        rw [if_neg hf]
        refine ⟨hres.1, ?_, hres.2.2.1, ?_⟩
        · rw [hres.2.1]
        · rw [hres.2.2.2, hrange]
          simp

end RunLoopLemmas

/-! ### C7 -/

/-- C7: whenever some batch step of a run fails — the first failure sitting
at batch j, every earlier batch having succeeded — the whole run aborts:
the user-visible message is the fixed generic one, the underlying cause is
only logged, the processing flag is cleared, and the downloads are exactly
the batches completed before the failure, which are not rolled back; no
batch after j is processed or downloaded. -/
theorem run_aborts_on_failure (qr : String → Except String String)
    (zipGen : List (String × String) → Except String Unit)
    (content : List String) (j : Nat) (e : String)
    (hj : j < totalBatchesOf content.length)
    (hok : ∀ i, i < j → ∃ d, batchResult qr zipGen content i = .ok d)
    (herr : batchResult qr zipGen content j = .error e) :
    (generateAndDownloadQRCodes qr zipGen content).errorMsg = genericErrorMsg ∧
    (generateAndDownloadQRCodes qr zipGen content).logged = [e] ∧
    (generateAndDownloadQRCodes qr zipGen content).isProcessing = false ∧
    (generateAndDownloadQRCodes qr zipGen content).downloads =
      (List.range j).filterMap (fun i => (batchResult qr zipGen content i).toOption) := by
  have hne : ¬ content.length = 0 := by
    intro h0
    rw [h0] at hj
    have hz : totalBatchesOf 0 = 0 := rfl
    omega
  have hmain := runLoop_first_error (processBatchG generateHashFixed qr content)
    (downloadBatch fileEntry zipGen) content.length (totalBatchesOf content.length)
    j (totalBatchesOf content.length) 0 e
    ({ initState content with isProcessing := true, errorMsg := "" })
    hj
    (by
      intro i hi
      rw [Nat.zero_add]
      exact hok i hi)
    (by
      rw [Nat.zero_add]
      exact herr)
  have hfn : (fun i => (stepOf (processBatchG generateHashFixed qr content)
      (downloadBatch fileEntry zipGen) content.length (0 + i)).toOption) =
      (fun i => (batchResult qr zipGen content i).toOption) := by
    funext i
    rw [Nat.zero_add]
    rfl
  simp only [generateAndDownloadQRCodes, if_neg hne]
  refine ⟨hmain.1, hmain.2.1.trans ?_, hmain.2.2.1, hmain.2.2.2.trans ?_⟩
  · rfl
  · rw [hfn]
    show ([] : List ZipDownload) ++ _ = _
    rw [List.nil_append]

/-- Witness for C7: a run over the single identifier 1 whose QR rendering
always throws aborts with the generic message, the logged cause, and no
downloads. -/
theorem run_aborts_on_failure_witness :
    (generateAndDownloadQRCodes (fun _ => .error "boom") (fun _ => .ok ())
      ["1"]).errorMsg = genericErrorMsg ∧
    (generateAndDownloadQRCodes (fun _ => .error "boom") (fun _ => .ok ())
      ["1"]).logged = ["boom"] ∧
    (generateAndDownloadQRCodes (fun _ => .error "boom") (fun _ => .ok ())
      ["1"]).isProcessing = false ∧
    (generateAndDownloadQRCodes (fun _ => .error "boom") (fun _ => .ok ())
      ["1"]).downloads = (List.range 0).filterMap (fun i =>
        (batchResult (fun _ => .error "boom") (fun _ => .ok ()) ["1"] i).toOption) :=
  run_aborts_on_failure (fun _ => .error "boom") (fun _ => .ok ()) ["1"] 0 "boom"
    (by decide) (fun i hi => absurd hi (by omega)) rfl

/-! ### C8 -/

/-- C8: generation triggered with an empty identifier list fails at once
with the missing-file message, and in the password variant an empty secret
fails at once with the missing-password message; in both cases the
resulting state is the fresh state with only the error set, so no batch is
processed, nothing is downloaded and nothing is logged. -/
theorem run_missing_preconditions :
    (∀ (qr : String → Except String String)
        (zipGen : List (String × String) → Except String Unit),
      generateAndDownloadQRCodes qr zipGen [] =
        { initState [] with errorMsg := noFileMsg }) ∧
    (∀ (qr : String → Except String String)
        (zipGen : List (String × String) → Except String Unit)
        (content : List String),
      generateAndDownloadQRCodesPw qr zipGen "" content =
        { initState content with errorMsg := noPasswordMsg }) ∧
    (∀ (qr : String → Except String String)
        (zipGen : List (String × String) → Except String Unit)
        (password : String), password ≠ "" →
      generateAndDownloadQRCodesPw qr zipGen password [] =
        { initState [] with errorMsg := noFileMsg }) := by
  refine ⟨fun qr zipGen => rfl, fun qr zipGen content => rfl, ?_⟩
  intro qr zipGen password hpw
  simp only [generateAndDownloadQRCodesPw, if_neg hpw]
  rfl

/-- Witness for C8's password-variant empty-list case, at a non-empty
password. -/
theorem run_missing_preconditions_witness :
    generateAndDownloadQRCodesPw (fun _ => .ok "img") (fun _ => .ok ()) "pw" [] =
      { initState [] with errorMsg := noFileMsg } :=
  run_missing_preconditions.2.2 (fun _ => .ok "img") (fun _ => .ok ()) "pw" (by decide)

/-! ### C9 -/

/-- The names in the zip folder after an insertion: unchanged when the name
was present, appended otherwise. -/
theorem insertFile_map_fst (name data : String) :
    ∀ entries : List (String × String),
      (insertFile entries name data).map Prod.fst =
        if name ∈ entries.map Prod.fst then entries.map Prod.fst
        else entries.map Prod.fst ++ [name]
  | [] => by simp [insertFile]
  | (n, d) :: rest => by
    by_cases hn : n = name
    · subst hn
      simp [insertFile]
    · have hne : ¬ name = n := fun h => hn h.symm
      simp only [insertFile, if_neg hn, List.map_cons]
      rw [insertFile_map_fst name data rest]
      by_cases hm : name ∈ rest.map Prod.fst <;>
        simp [hm, hne]

/-- Inserting never removes a name already in the folder. -/
theorem mem_insertFile_map_fst (name data x : String)
    (entries : List (String × String)) (hx : x ∈ entries.map Prod.fst) :
    x ∈ (insertFile entries name data).map Prod.fst := by
  rw [insertFile_map_fst]
  split
  · exact hx
  · exact List.mem_append_left _ hx

/-- The inserted name is in the folder afterwards. -/
theorem name_mem_insertFile_map_fst (name data : String)
    (entries : List (String × String)) :
    name ∈ (insertFile entries name data).map Prod.fst := by
  rw [insertFile_map_fst]
  split
  · next h => exact h
  · next h => exact List.mem_append_right _ (by simp)

/-- Inserting grows the folder only when the name is fresh. -/
theorem insertFile_length (name data : String)
    (entries : List (String × String)) :
    (insertFile entries name data).length =
      if name ∈ entries.map Prod.fst then entries.length else entries.length + 1 := by
  have h1 : (insertFile entries name data).length =
      ((insertFile entries name data).map Prod.fst).length :=
    (List.length_map _ _).symm
  rw [h1, insertFile_map_fst]
  split <;> simp

/-- The folder never holds more files than insertions plus what it started
with. -/
theorem foldl_insertFile_length_le (mk : QRCodeData → String × String) :
    ∀ (l : List QRCodeData) (acc : List (String × String)),
      (l.foldl (fun a q => insertFile a (mk q).1 (mk q).2) acc).length ≤
        acc.length + l.length
  | [], acc => by simp
  | q :: t, acc => by
    simp only [List.foldl_cons, List.length_cons]
    have h1 := foldl_insertFile_length_le mk t (insertFile acc (mk q).1 (mk q).2)
    have h2 : (insertFile acc (mk q).1 (mk q).2).length ≤ acc.length + 1 := by
      rw [insertFile_length]
      split <;> omega
    omega

/-- If some record's name is already in the folder, the final count falls
short of the record count. -/
theorem foldl_insertFile_length_lt_of_mem (mk : QRCodeData → String × String) :
    ∀ (l : List QRCodeData) (acc : List (String × String)),
      (∃ q ∈ l, (mk q).1 ∈ acc.map Prod.fst) →
      (l.foldl (fun a q => insertFile a (mk q).1 (mk q).2) acc).length <
        acc.length + l.length
  | [], acc, h => by simp at h
  | q0 :: t, acc, h => by
    simp only [List.foldl_cons, List.length_cons]
    obtain ⟨q, hq, hmem⟩ := h
    rcases List.mem_cons.mp hq with rfl | hqt
    · have hlen : (insertFile acc (mk q).1 (mk q).2).length = acc.length := by
        rw [insertFile_length, if_pos hmem]
      have h1 := foldl_insertFile_length_le mk t (insertFile acc (mk q).1 (mk q).2)
      omega
    · have hmem' : (mk q).1 ∈ (insertFile acc (mk q0).1 (mk q0).2).map Prod.fst :=
        mem_insertFile_map_fst _ _ _ acc hmem
      have h1 := foldl_insertFile_length_lt_of_mem mk t _ ⟨q, hqt, hmem'⟩
      have h2 : (insertFile acc (mk q0).1 (mk q0).2).length ≤ acc.length + 1 := by
        rw [insertFile_length]
        split <;> omega
      omega

/-- Duplicated names make the final file count fall short of the record
count. -/
theorem foldl_insertFile_length_lt_of_dup (mk : QRCodeData → String × String) :
    ∀ (l : List QRCodeData) (acc : List (String × String)),
      ¬ (l.map (fun q => (mk q).1)).Nodup →
      (l.foldl (fun a q => insertFile a (mk q).1 (mk q).2) acc).length <
        acc.length + l.length
  | [], acc, h => by simp at h
  | q0 :: t, acc, h => by
    simp only [List.map_cons] at h
    rw [List.nodup_cons] at h
    simp only [List.foldl_cons, List.length_cons]
    by_cases hm : (mk q0).1 ∈ t.map (fun q => (mk q).1)
    · obtain ⟨q, hqt, heq⟩ := List.mem_map.mp hm
      have hmem' : (mk q).1 ∈ (insertFile acc (mk q0).1 (mk q0).2).map Prod.fst := by
        rw [heq]
        exact name_mem_insertFile_map_fst _ _ acc
      have h1 := foldl_insertFile_length_lt_of_mem mk t
        (insertFile acc (mk q0).1 (mk q0).2) ⟨q, hqt, hmem'⟩
      have h2 : (insertFile acc (mk q0).1 (mk q0).2).length ≤ acc.length + 1 := by
        rw [insertFile_length]
        split <;> omega
      omega
    · have hnd : ¬ (t.map (fun q => (mk q).1)).Nodup := fun hnodup => h ⟨hm, hnodup⟩
      have h1 := foldl_insertFile_length_lt_of_dup mk t
        (insertFile acc (mk q0).1 (mk q0).2) hnd
      have h2 : (insertFile acc (mk q0).1 (mk q0).2).length ≤ acc.length + 1 := by
        rw [insertFile_length]
        split <;> omega
      omega

/-- C9: archive entries are keyed by the identifier-derived file name, so a
later insertion under an existing name overwrites the earlier content, and
a batch repeating an identifier packs into strictly fewer image files than
it has records — duplicates are silently collapsed, not rejected. -/
theorem duplicate_identifiers_collapse :
    (∀ (entries : List (String × String)) (name data : String),
      (insertFile entries name data).lookup name = some data) ∧
    (∀ l : List QRCodeData, ¬ (l.map (fun q => q.number)).Nodup →
      (zipFilesOf fileEntry l).length < l.length) := by
  constructor
  · intro entries name data
    induction entries with
    | nil => simp [insertFile, List.lookup]
    | cons p rest ih =>
      obtain ⟨n, d⟩ := p
      by_cases hn : n = name
      · subst hn
        simp [insertFile, List.lookup]
      · have hne : (name == n) = false := by
          simp [Ne.symm hn]
        simp only [insertFile, if_neg hn, List.lookup_cons, hne]
        exact ih
  · intro l hdup
    have hnd : ¬ ((sortedQRCodes l).map (fun q => (fileEntry q).1)).Nodup := by
      intro hnodup
      apply hdup
      have h1 : (fun q : QRCodeData => (fileEntry q).1) =
          (fun s : String => s ++ ".png") ∘ (fun q : QRCodeData => q.number) := rfl
      rw [h1, ← List.map_map] at hnodup
      have h2 : ((sortedQRCodes l).map (fun q => q.number)).Nodup :=
        List.Nodup.of_map _ hnodup
      exact ((List.perm_insertionSort qrLE l).map (fun q => q.number)).nodup_iff.mp h2
    have h3 := foldl_insertFile_length_lt_of_dup fileEntry (sortedQRCodes l) [] hnd
    have h4 : (sortedQRCodes l).length = l.length :=
      (List.perm_insertionSort qrLE l).length_eq
    simpa [zipFilesOf, h4] using h3

/-- Witness for C9: a batch holding the identifier 7 twice packs into a
single file. -/
theorem duplicate_identifiers_collapse_witness :
    (zipFilesOf fileEntry [⟨"u1", "d1", "7"⟩, ⟨"u2", "d2", "7"⟩]).length <
      ([⟨"u1", "d1", "7"⟩, ⟨"u2", "d2", "7"⟩] : List QRCodeData).length :=
  duplicate_identifiers_collapse.2 _ (by decide)

/-! ### C10 -/

/-- C10: the packager sorts the record array it is handed in place, so the
caller's batch array afterwards is the numeric-order permutation of what it
passed in, and that array is the only caller-visible state the packager
touches — a run never modifies the loaded identifier list, in either
variant. -/
theorem packager_mutates_only_batch_array :
    (∀ (mkEntry : QRCodeData → String × String)
        (zipGen : List (String × String) → Except String Unit)
        (l : List QRCodeData) (b st sp : Nat) (d : ZipDownload)
        (post : List QRCodeData),
      downloadBatch mkEntry zipGen l b st sp = .ok (d, post) →
      post = sortedQRCodes l ∧ post.Perm l ∧ List.Sorted qrLE post) ∧
    (∀ (qr : String → Except String String)
        (zipGen : List (String × String) → Except String Unit)
        (content : List String),
      (generateAndDownloadQRCodes qr zipGen content).fileContent = content) ∧
    (∀ (qr : String → Except String String)
        (zipGen : List (String × String) → Except String Unit)
        (password : String) (content : List String),
      (generateAndDownloadQRCodesPw qr zipGen password content).fileContent = content) := by
  refine ⟨?_, ?_, ?_⟩
  · intro mkEntry zipGen l b st sp d post h
    simp only [downloadBatch] at h
    cases hz : zipGen ((sortedQRCodes l).foldl
        (fun acc q => insertFile acc (mkEntry q).1 (mkEntry q).2) []) with
    | error e =>
      rw [hz] at h
      exact Except.noConfusion h
    | ok u =>
      rw [hz] at h
      simp only [Except.ok.injEq, Prod.mk.injEq] at h
      have hpost : post = sortedQRCodes l := h.2.symm
      subst hpost
      exact ⟨rfl, List.perm_insertionSort qrLE l, List.sorted_insertionSort qrLE l⟩
  · intro qr zipGen content
    by_cases h0 : content.length = 0
    · simp only [generateAndDownloadQRCodes, if_pos h0]
      rfl
    · simp only [generateAndDownloadQRCodes, if_neg h0]
      rw [runLoop_fileContent]
      rfl
  · intro qr zipGen password content
    by_cases hpw : password = ""
    · simp only [generateAndDownloadQRCodesPw, if_pos hpw]
      rfl
    · by_cases h0 : content.length = 0
      · simp only [generateAndDownloadQRCodesPw, if_neg hpw, if_pos h0]
        rfl
      · simp only [generateAndDownloadQRCodesPw, if_neg hpw, if_neg h0]
        rw [runLoop_fileContent]
        rfl

/-- Witness for C10: packaging a concrete two-record batch hands the caller
back the numerically sorted array. -/
theorem packager_mutates_only_batch_array_witness :
    ([⟨"u2", "d2", "1"⟩, ⟨"u1", "d1", "2"⟩] : List QRCodeData).Perm
      [⟨"u1", "d1", "2"⟩, ⟨"u2", "d2", "1"⟩] :=
  (packager_mutates_only_batch_array.1 fileEntry (fun _ => .ok ())
    [⟨"u1", "d1", "2"⟩, ⟨"u2", "d2", "1"⟩] 1 1 2
    ⟨"QR Codes 1 - 2.zip", "QR Codes 1 - 2", [("1.png", "d2"), ("2.png", "d1")]⟩
    [⟨"u2", "d2", "1"⟩, ⟨"u1", "d1", "2"⟩] (by decide)).2.1

end QRGen
